import Mathlib

/-!
Shallow embedding of the aegis authentication and authorization core
(Go sources under internal/domain, internal/auth, internal/service,
internal/storage/postgres), together with theorems checking the
natural-language specification against it.

Machine integers and timestamps are modelled as `Nat`; UUIDs as `Nat`;
the SQL stores as in-memory lists; fallible Go functions return `Except`.
Functions that both return an error and mutate a store return a pair of
the result and the post-state.
-/

deriving instance DecidableEq for Except

namespace Aegis

/-! Domain errors (internal/domain/errors.go). `validationErr` models
`domain.ValidationError` with its field and message. -/

inductive DomainError where
  | notFound
  | alreadyExists
  | invalidInput
  | unauthorized
  | forbidden
  | conflict
  | tokenExpired
  | tokenRevoked
  | invalidCredential
  | versionMismatch
  | invalidStatus
  | validationErr (field message : String)
  | /-- Storage-level scan failure passed through untranslated by
  `mapError` (it is neither `pgx.ErrNoRows` nor a `PgError`); carries the
  column and destination counts of the failed `Scan`. -/
    scanMismatch (columns destinations : Nat)
deriving DecidableEq, Repr

/-! Permissions and roles (domain role/permission file). -/

structure Permission where
  resource : String
  action : String
  description : String := ""
deriving DecidableEq, Repr

/-- Models Go `Permission.String()`: the permission in resource:action format. -/
def Permission.str (p : Permission) : String :=
  p.resource ++ ":" ++ p.action

structure Role where
  name : String
  permissions : List Permission
deriving DecidableEq, Repr

/-- Models Go `Role.HasPermission`: a loop over the role's permissions that
returns true on the first entry matching one of the four rules
(exact, resource wildcard action, wildcard resource exact action, star-star). -/
def Role.hasPermission (r : Role) (resource action : String) : Bool :=
  r.permissions.any fun p =>
    (p.resource == resource && p.action == action) ||
    (p.resource == resource && p.action == "*") ||
    (p.resource == "*" && p.action == action) ||
    (p.resource == "*" && p.action == "*")

/-! User status state machine (internal/domain/user.go). -/

inductive UserStatus where
  | pending
  | active
  | inactive
  | suspended
deriving DecidableEq, Repr

/-- The `allowed` transition map inside Go `UserStatus.CanTransitionTo`. -/
def UserStatus.allowedTargets : UserStatus → List UserStatus
  | .pending => [.active, .inactive]
  | .active => [.inactive, .suspended]
  | .inactive => [.active, .suspended]
  | .suspended => [.active, .inactive]

/-- Models Go `UserStatus.CanTransitionTo` (`slices.Contains(allowed[s], target)`). -/
def UserStatus.canTransitionTo (s target : UserStatus) : Bool :=
  (s.allowedTargets).contains target

inductive UserType where
  | admin
  | customer
  | partner
deriving DecidableEq, Repr

/-- In-memory copy of the `users` row / Go `domain.User` (the fields the
modelled operations read or write). Timestamps and ids are `Nat`. -/
structure User where
  id : Nat
  email : String
  passwordHash : String
  phone : Option String := none
  username : String
  fullName : String
  type' : UserType := .customer
  status : UserStatus
  emailVerified : Bool := false
  phoneVerified : Bool := false
  updatedAt : Nat := 0
  deletedAt : Option Nat := none
  version : Nat
  roles : List Role := []
deriving DecidableEq, Repr

/-- Models Go `User.ChangeStatus` restricted to the four recognized statuses
(the Go `Valid()` pre-check only excludes strings outside the enumeration,
which the `UserStatus` inductive cannot represent). `now` stands for
`time.Now()` written to `UpdatedAt`. -/
def User.changeStatus (u : User) (newStatus : UserStatus) (now : Nat) :
    Except DomainError User :=
  if !u.status.canTransitionTo newStatus then
    .error (.validationErr "status" "cannot transition")
  else
    .ok { u with status := newStatus, updatedAt := now }

/-- Models Go `User.Activate`: idempotent no-op when already active. -/
def User.activate (u : User) (now : Nat) : Except DomainError User :=
  if u.status == .active then .ok u
  else u.changeStatus .active now

/-- Models Go `User.Suspend`: idempotent no-op when already suspended. -/
def User.suspend (u : User) (now : Nat) : Except DomainError User :=
  if u.status == .suspended then .ok u
  else u.changeStatus .suspended now

/-- Models Go `User.IsActive`: active status and not soft-deleted. -/
def User.isActive (u : User) : Bool :=
  u.status == .active && u.deletedAt.isNone

/-- Models Go `User.HasPermission`: true when any assigned role grants. -/
def User.hasPermission (u : User) (resource action : String) : Bool :=
  u.roles.any fun role => role.hasPermission resource action

/-- Step function of Go `User.AllPermissions`: the loop body keeps a `seen`
set of concatenated `resource:action` keys and appends unseen permissions. -/
def allPermsStep (acc : List String × List Permission) (p : Permission) :
    List String × List Permission :=
  let key := p.resource ++ ":" ++ p.action
  if acc.1.contains key then acc
  else (key :: acc.1, acc.2 ++ [p])

/-- Models Go `User.AllPermissions`: flattens the user's roles, deduplicating
by the concatenated string `resource + ":" + action`. -/
def User.allPermissions (u : User) : List Permission :=
  (u.roles.foldl (fun acc role => role.permissions.foldl allPermsStep acc)
    ([], [])).2

/-- Models the permission-string construction inside
`AuthService.generateTokens`: `perm.String()` over `user.AllPermissions()`. -/
def tokenPermissionStrings (u : User) : List String :=
  u.allPermissions.map Permission.str

/-! Password strength policy (internal/auth password utilities). -/

inductive PasswordError where
  | tooShort
  | tooLong
  | missingUpper
  | missingLower
  | missingDigit
deriving DecidableEq, Repr

/-- Character-class tests of the Go rune loop (`c >= 'A' && c <= 'Z'` etc.). -/
def isUpperAscii (c : Char) : Bool := 'A' ≤ c && c ≤ 'Z'

def isLowerAscii (c : Char) : Bool := 'a' ≤ c && c ≤ 'z'

def isDigitAscii (c : Char) : Bool := '0' ≤ c && c ≤ '9'

/-- Models Go `ValidatePasswordStrength`. Go `len(password)` counts UTF-8
bytes, modelled by `String.utf8ByteSize`; the rune loop walks the
characters. -/
def ValidatePasswordStrength (password : String) : Except PasswordError Unit :=
  if password.utf8ByteSize < 8 then .error .tooShort
  else if password.utf8ByteSize > 72 then .error .tooLong
  else
    let hasUpper := password.data.any isUpperAscii
    let hasLower := password.data.any isLowerAscii
    let hasDigit := password.data.any isDigitAscii
    if !hasUpper then .error .missingUpper
    else if !hasLower then .error .missingLower
    else if !hasDigit then .error .missingDigit
    else .ok ()

/-! Refresh-token records (internal/domain/token.go). -/

structure RefreshToken where
  id : Nat
  userId : Nat
  tokenHash : String
  expiresAt : Nat
  createdAt : Nat := 0
  revokedAt : Option Nat := none
  ipAddress : String := ""
  userAgent : String := ""
deriving DecidableEq, Repr

/-- Models Go `RefreshToken.IsExpired`: `time.Now().After(ExpiresAt)`. -/
def RefreshToken.isExpired (t : RefreshToken) (now : Nat) : Bool :=
  now > t.expiresAt

/-- Models Go `RefreshToken.IsRevoked`. -/
def RefreshToken.isRevoked (t : RefreshToken) : Bool :=
  t.revokedAt.isSome

/-- Models Go `RefreshToken.IsValid`: not expired and not revoked. -/
def RefreshToken.isValid (t : RefreshToken) (now : Nat) : Bool :=
  !t.isExpired now && !t.isRevoked

/-! Token repository over an in-memory store (postgres token repository).
The store state is the list of `refresh_tokens` rows. -/

/-- The row-matching semantics of `TokenRepository.GetByHash`'s query
(`SELECT ... WHERE token_hash = $1`): the matched row, `none` for
`pgx.ErrNoRows`. This is the *intended* lookup; the shipped code never
delivers the row, because `scanToken` supplies eight `Scan` destinations
for the query's nine columns — see `scanToken` and `getTokenByHashActual`
for the program as shipped. The service definitions below that use this
idealized lookup (`refreshRotate`, `logout`) model the rotation and logout
logic past the lookup. -/
def getTokenByHash (ts : List RefreshToken) (hash : String) :
    Option RefreshToken :=
  ts.find? fun t => t.tokenHash == hash

/-- Column count of the `SELECT` in `TokenRepository.GetByHash`: id,
user_id, token_hash, expires_at, created_at, revoked_at, ip_address,
user_agent, replaced_by_id. -/
def getByHashSelectColumns : Nat := 9

/-- Destination count `TokenRepository.scanToken` passes to `Scan`: ID,
UserID, TokenHash, ExpiresAt, CreatedAt, RevokedAt, IPAddress, UserAgent
(the ninth selected column, replaced_by_id, has no destination). -/
def scanTokenDestinations : Nat := 8

/-- Models `TokenRepository.scanToken` applied to a row of the GetByHash
query: pgx v5 `Scan` fails whenever the destination count differs from the
selected column count, and `mapError` passes that error through
untranslated; the row would be delivered only on equal arity. -/
def scanToken (row : RefreshToken) : Except DomainError RefreshToken :=
  if scanTokenDestinations = getByHashSelectColumns then .ok row
  else .error (.scanMismatch getByHashSelectColumns scanTokenDestinations)

/-- Models `TokenRepository.GetByHash` as shipped: row lookup by
`token_hash`, then `scanToken`; a miss is `pgx.ErrNoRows`, mapped to
`ErrNotFound`. Because of the nine-column/eight-destination mismatch, a
matched row fails the scan, so this call never returns a token. -/
def getTokenByHashActual (ts : List RefreshToken) (hash : String) :
    Except DomainError RefreshToken :=
  match ts.find? (fun t => t.tokenHash == hash) with
  | none => .error .notFound
  | some row => scanToken row

/-- Models `TokenRepository.Revoke`: `UPDATE refresh_tokens SET revoked_at =
NOW() WHERE id = $1 AND revoked_at IS NULL`, returning `ErrNotFound` when
`RowsAffected() == 0`. Returns the result together with the post-state. -/
def revokeTokenById (ts : List RefreshToken) (id now : Nat) :
    Except DomainError Unit × List RefreshToken :=
  if ts.any (fun t => t.id == id && !t.isRevoked) then
    (.ok (), ts.map fun t =>
      if t.id == id && !t.isRevoked then { t with revokedAt := some now } else t)
  else
    (.error .notFound, ts)

/-- Models `TokenRepository.RevokeAllForUser`: `UPDATE refresh_tokens SET
revoked_at = NOW() WHERE user_id = $1 AND revoked_at IS NULL`; the row count
is not inspected, so the call always succeeds. -/
def revokeAllForUser (ts : List RefreshToken) (userId now : Nat) :
    List RefreshToken :=
  ts.map fun t =>
    if t.userId == userId && !t.isRevoked then { t with revokedAt := some now }
    else t

/-- Models `TokenRepository.DeleteExpired`: `DELETE ... WHERE expires_at <
NOW() - INTERVAL '7 days'` (7 days as 604800 seconds). -/
def deleteExpiredTokens (ts : List RefreshToken) (now : Nat) :
    List RefreshToken :=
  ts.filter fun t => !(t.expiresAt + 604800 < now)

/-! User repository over an in-memory store (postgres user repository). -/

/-- Models `UserRepository.GetByID`: `SELECT ... WHERE id = $1 AND
deleted_at IS NULL`. -/
def getUserByID (us : List User) (id : Nat) : Option User :=
  us.find? fun u => u.id == id && u.deletedAt.isNone

/-- Character-wise string lowering, the semantics of SQL `LOWER(...)`
(`String.map Char.toLower`, written over the character list so that it
evaluates by kernel reduction). -/
def lowerStr (s : String) : String :=
  ⟨s.data.map Char.toLower⟩

/-- Models `UserRepository.GetByEmail`: `SELECT ... WHERE LOWER(email) =
LOWER($1) AND deleted_at IS NULL`. -/
def getUserByEmail (us : List User) (email : String) : Option User :=
  us.find? fun u => lowerStr u.email == lowerStr email && u.deletedAt.isNone

/-- Row predicate of the conditional `UPDATE` in `UserRepository.Update`:
`WHERE id = $1 AND version = $12 AND deleted_at IS NULL`. -/
def updateMatches (u : User) (x : User) : Bool :=
  x.id == u.id && x.version == u.version && x.deletedAt.isNone

/-- The `SET` list of `UserRepository.Update` applied to a matching row:
every mutable column is taken from the caller's snapshot and
`version = version + 1` is computed from the stored row. -/
def applyUserUpdate (u : User) (now : Nat) (x : User) : User :=
  { x with
    email := u.email
    passwordHash := u.passwordHash
    phone := u.phone
    username := u.username
    fullName := u.fullName
    type' := u.type'
    status := u.status
    emailVerified := u.emailVerified
    phoneVerified := u.phoneVerified
    updatedAt := now
    version := x.version + 1 }

/-- Models `UserRepository.Update`: the optimistic-concurrency conditional
write; when zero rows match, a fresh `GetByID` distinguishes `ErrNotFound`
from `ErrVersionMismatch`. Returns the result with the post-state. -/
def updateUser (us : List User) (u : User) (now : Nat) :
    Except DomainError Unit × List User :=
  if us.any (updateMatches u) then
    (.ok (), us.map fun x => if updateMatches u x then applyUserUpdate u now x else x)
  else
    match getUserByID us u.id with
    | none => (.error .notFound, us)
    | some existing =>
      if existing.version != u.version then (.error .versionMismatch, us)
      else (.error .notFound, us)

/-! Auth service operations (service auth file). The bcrypt verifier, the
SHA-256 token hash and the random token generator are environment inputs,
passed as parameters `verify`, `hash`, `newId`, `newRaw`; the event
publisher outcome is the parameter `publishResult`. The refresh-token TTL
uses the configured default of 7 days (604800 seconds). -/

def defaultRefreshTTL : Nat := 604800

/-- Observable outcome of a successful login or rotation (the fields of
`LoginResult` the model tracks: the raw refresh token handed to the client
and the authenticated account). -/
structure AuthSuccess where
  refreshTokenRaw : String
  userId : Nat
deriving DecidableEq, Repr

/-- Models `AuthService.generateTokens` restricted to its ledger effect:
a fresh refresh-token record is inserted whose `token_hash` is the hash of
the new raw token. JWT signing cannot fail in the model. -/
def generateTokens (hash : String → String) (u : User)
    (ts : List RefreshToken) (now newId : Nat) (newRaw ip ua : String) :
    AuthSuccess × List RefreshToken :=
  let newTok : RefreshToken :=
    { id := newId
      userId := u.id
      tokenHash := hash newRaw
      expiresAt := now + defaultRefreshTTL
      createdAt := now
      ipAddress := ip
      userAgent := ua }
  (⟨newRaw, u.id⟩, ts ++ [newTok])

/-- Models `AuthService.Login`. `verify` stands for `auth.CheckPassword`
(true when the bcrypt hash matches), `publishResult` for the event
publisher's return value, which the Go code checks and propagates. -/
def login (verify : String → String → Bool) (hash : String → String)
    (us : List User) (ts : List RefreshToken) (email password : String)
    (now newId : Nat) (newRaw ip ua : String)
    (publishResult : Except DomainError Unit) :
    Except DomainError AuthSuccess × List RefreshToken :=
  match getUserByEmail us email with
  | none => (.error .invalidCredential, ts)
  | some user =>
    if !verify password user.passwordHash then (.error .invalidCredential, ts)
    else if !user.isActive then (.error .unauthorized, ts)
    else
      let out := generateTokens hash user ts now newId newRaw ip ua
      match publishResult with
      | .error e => (.error e, out.2)
      | .ok _ => (.ok out.1, out.2)

/-- The rotation protocol of `AuthService.RefreshToken` over the
*intended* lookup (`getTokenByHash`): reuse detection with mass
revocation, account checks, revocation of the presented record, and
issuance of the successor. The Go code discards the error of the
intermediate `Revoke` calls (`_ = s.tokens.Revoke(...)`), so only their
state effect is kept. `refreshRotateActual` composes the same logic with
the shipped, scan-defective lookup. -/
def refreshRotate (hash : String → String) (us : List User)
    (ts : List RefreshToken) (raw : String) (now newId : Nat)
    (newRaw ip ua : String) :
    Except DomainError AuthSuccess × List RefreshToken :=
  match getTokenByHash ts (hash raw) with
  | none => (.error .invalidCredential, ts)
  | some stored =>
    if !stored.isValid now then
      if stored.isRevoked then
        (.error .invalidCredential, revokeAllForUser ts stored.userId now)
      else
        (.error .invalidCredential, ts)
    else
      match getUserByID us stored.userId with
      | none => (.error .invalidCredential, ts)
      | some user =>
        if !user.isActive then
          (.error .unauthorized, (revokeTokenById ts stored.id now).2)
        else
          let ts1 := (revokeTokenById ts stored.id now).2
          let out := generateTokens hash user ts1 now newId newRaw ip ua
          (.ok out.1, out.2)

/-- Models `AuthService.RefreshToken` as shipped: the lookup goes through
`getTokenByHashActual`, whose error (scan failure on a hit, NotFound on a
miss) is collapsed to `ErrInvalidCredential` before the validity and reuse
checks; the rotation logic past the lookup is that of `refreshRotate`. -/
def refreshRotateActual (hash : String → String) (us : List User)
    (ts : List RefreshToken) (raw : String) (now newId : Nat)
    (newRaw ip ua : String) :
    Except DomainError AuthSuccess × List RefreshToken :=
  match getTokenByHashActual ts (hash raw) with
  | .error _ => (.error .invalidCredential, ts)
  | .ok stored =>
    if !stored.isValid now then
      if stored.isRevoked then
        (.error .invalidCredential, revokeAllForUser ts stored.userId now)
      else
        (.error .invalidCredential, ts)
    else
      match getUserByID us stored.userId with
      | none => (.error .invalidCredential, ts)
      | some user =>
        if !user.isActive then
          (.error .unauthorized, (revokeTokenById ts stored.id now).2)
        else
          let ts1 := (revokeTokenById ts stored.id now).2
          let out := generateTokens hash user ts1 now newId newRaw ip ua
          (.ok out.1, out.2)

/-- The logout logic of `AuthService.Logout` over the *intended* lookup
(`getTokenByHash`): an unknown token hash returns success without effect;
otherwise the record is revoked (the `Revoke` error, if any, is returned)
and the logout event is published, its error propagated. In the shipped
program the scan-defective `GetByHash` fails every call, so `Logout`
returns success at the lookup without revoking or publishing. -/
def logout (hash : String → String) (ts : List RefreshToken) (raw : String)
    (now : Nat) (publishResult : Except DomainError Unit) :
    Except DomainError Unit × List RefreshToken :=
  match getTokenByHash ts (hash raw) with
  | none => (.ok (), ts)
  | some stored =>
    match revokeTokenById ts stored.id now with
    | (.error e, ts1) => (.error e, ts1)
    | (.ok _, ts1) =>
      match publishResult with
      | .error e => (.error e, ts1)
      | .ok _ => (.ok (), ts1)

/-- Models `AuthService.LogoutAll`. -/
def logoutAll (ts : List RefreshToken) (userId now : Nat) :
    List RefreshToken :=
  revokeAllForUser ts userId now

/-- Models `UserService.ActivateUser`: load, `user.Activate()`, conditional
update, then `_ = s.publisher.Publish(...)` — the publish outcome is
received but discarded. -/
def activateUser (us : List User) (id now : Nat)
    (publishResult : Except DomainError Unit) :
    Except DomainError Unit × List User :=
  match getUserByID us id with
  | none => (.error .notFound, us)
  | some user =>
    match user.activate now with
    | .error e => (.error e, us)
    | .ok u1 =>
      match updateUser us u1 now with
      | (.error e, us1) => (.error e, us1)
      | (.ok _, us1) =>
        match publishResult with
        | _ => (.ok (), us1)

/-! Access-token validation (internal/auth/jwt.go). The token wire format
and the parser internals live in the external golang-jwt v5 library; they
are modelled by a structure carrying the features the parser inspects, in
the order the library inspects them: structural well-formedness, the
signing algorithm (the manager's keyfunc rejects any non-HMAC method),
signature validity under the manager's secret, then the time claims, whose
failures are joined so that `errors.Is(err, jwt.ErrTokenExpired)` holds
exactly when the expiry check failed. -/

inductive JoseAlg where
  | HS256
  | HS384
  | HS512
  | RS256
  | ES256
  | algNone
deriving DecidableEq, Repr

/-- The HMAC family test performed by the keyfunc's type assertion
`token.Method.(*jwt.SigningMethodHMAC)`. -/
def JoseAlg.isHMAC : JoseAlg → Bool
  | .HS256 => true
  | .HS384 => true
  | .HS512 => true
  | _ => false

structure JoseToken where
  wellFormed : Bool
  alg : JoseAlg
  sigValid : Bool
  exp : Option Nat := none
  nbf : Option Nat := none
deriving DecidableEq, Repr

inductive JwtParseError where
  | malformed
  | unverifiable
  | signatureInvalid
  | invalidClaims (expired notYetValid : Bool)
deriving DecidableEq, Repr

/-- Modelled golang-jwt v5 `ParseWithClaims` under the manager's keyfunc:
malformed input, keyfunc rejection (non-HMAC algorithm), signature
verification, then claim validation (`exp` strictly in the past fails
expired; `nbf` in the future fails not-yet-valid; both failures are
reported jointly). -/
def parseWithClaims (tok : JoseToken) (now : Nat) : Except JwtParseError Unit :=
  if !tok.wellFormed then .error .malformed
  else if !tok.alg.isHMAC then .error .unverifiable
  else if !tok.sigValid then .error .signatureInvalid
  else
    let expired := match tok.exp with
      | none => false
      | some e => decide (e < now)
    let notYet := match tok.nbf with
      | none => false
      | some n => decide (now < n)
    if expired || notYet then .error (.invalidClaims expired notYet)
    else .ok ()

inductive TokenAuthError where
  | invalidToken
  | expiredToken
deriving DecidableEq, Repr

/-- Models `JWTManager.ValidateAccessToken`: parse, map an error for which
`errors.Is(err, jwt.ErrTokenExpired)` holds to `ErrExpiredToken`, and every
other parse error to `ErrInvalidToken`. -/
def ValidateAccessToken (tok : JoseToken) (now : Nat) :
    Except TokenAuthError Unit :=
  match parseWithClaims tok now with
  | .ok _ => .ok ()
  | .error (.invalidClaims true _) => .error .expiredToken
  | .error _ => .error .invalidToken

/-! Theorems. -/

/-- The four match rules of the specification's `Grants` relation, as a
proposition over one permission entry. -/
def grantsPair (p : Permission) (resource action : String) : Prop :=
  (p.resource = resource ∧ p.action = action) ∨
  (p.resource = resource ∧ p.action = "*") ∨
  (p.resource = "*" ∧ p.action = action) ∨
  (p.resource = "*" ∧ p.action = "*")

theorem role_hasPermission_iff (r : Role) (resource action : String) :
    r.hasPermission resource action = true ↔
      ∃ p ∈ r.permissions, grantsPair p resource action := by
  simp [Role.hasPermission, List.any_eq_true, grantsPair, or_assoc]

/-- C2: the grant check is true iff the permission set contains
`(resource, action)`, `(resource, *)`, `(*, action)` or `(*, *)`; there is
no deny rule, and the first-match loop equals a full scan: the result is
invariant under permutation of the permission list. The user-level check
is the same condition over the union of the user's roles. -/
theorem c2_grants_iff_matching_entry :
    ∀ (r : Role) (resource action : String),
      (r.hasPermission resource action = true ↔
        ∃ p ∈ r.permissions, grantsPair p resource action) ∧
      (∀ r2 : Role, r.permissions.Perm r2.permissions →
        r.hasPermission resource action = r2.hasPermission resource action) ∧
      (∀ u : User, u.hasPermission resource action = true ↔
        ∃ role ∈ u.roles, ∃ p ∈ role.permissions, grantsPair p resource action) := by
  intro r resource action
  refine ⟨role_hasPermission_iff r resource action, ?_, ?_⟩
  · intro r2 hperm
    rw [Bool.eq_iff_iff, role_hasPermission_iff, role_hasPermission_iff]
    constructor
    · rintro ⟨p, hp, hg⟩
      exact ⟨p, hperm.mem_iff.mp hp, hg⟩
    · rintro ⟨p, hp, hg⟩
      exact ⟨p, hperm.mem_iff.mpr hp, hg⟩
  · intro u
    simp only [User.hasPermission, List.any_eq_true]
    constructor
    · rintro ⟨role, hrole, hhas⟩
      obtain ⟨p, hp, hg⟩ := (role_hasPermission_iff role resource action).mp hhas
      exact ⟨role, hrole, p, hp, hg⟩
    · rintro ⟨role, hrole, p, hp, hg⟩
      exact ⟨role, hrole,
        (role_hasPermission_iff role resource action).mpr ⟨p, hp, hg⟩⟩

theorem c2_witness :
    ({ name := "r", permissions := [{ resource := "users", action := "*" }] } :
        Role).hasPermission "users" "read" = true ∧
    ({ name := "r", permissions := [] } : Role).hasPermission "users" "read"
      = ({ name := "r2", permissions := [] } : Role).hasPermission "users" "read" := by
  constructor
  · exact (c2_grants_iff_matching_entry
      { name := "r", permissions := [{ resource := "users", action := "*" }] }
      "users" "read").1.mpr
      ⟨{ resource := "users", action := "*" }, by simp, by
        simp [grantsPair]⟩
  · exact (c2_grants_iff_matching_entry
      { name := "r", permissions := [] } "users" "read").2.1
      { name := "r2", permissions := [] } (List.Perm.refl [])

/-- C3 counterexample: a status-change request repeating the current status
is not a no-op success; `ChangeStatus` rejects `pending -> pending` with an
invalid-transition validation error. -/
theorem c3_counterexample :
    (User.changeStatus
      { id := 1, email := "a@b.com", passwordHash := "h", username := "abc",
        fullName := "A", status := .pending, version := 1 }
      .pending 5).isOk = false := by decide

/-- C3 amended: `ChangeStatus` succeeds iff `(source, target)` is an edge of
the fixed transition table; repeating the current status through
`ChangeStatus` fails with the invalid-transition error, and only the
`Activate` and `Suspend` conveniences treat an already-reached target as a
no-op success. -/
theorem c3_status_transitions :
    ∀ (u : User) (t : UserStatus) (now : Nat),
      ((u.changeStatus t now).isOk = true ↔ u.status.canTransitionTo t = true) ∧
      (u.status.canTransitionTo t = true ↔
        (u.status, t) ∈ ([(.pending, .active), (.pending, .inactive),
          (.active, .inactive), (.active, .suspended),
          (.inactive, .active), (.inactive, .suspended),
          (.suspended, .active), (.suspended, .inactive)] :
            List (UserStatus × UserStatus))) ∧
      (u.status = t →
        u.changeStatus t now = .error (.validationErr "status" "cannot transition")) ∧
      (u.status = .active → u.activate now = .ok u) ∧
      (u.status = .suspended → u.suspend now = .ok u) := by
  intro u t now
  refine ⟨?_, ?_, ?_, ?_, ?_⟩
  · cases h : u.status.canTransitionTo t <;>
      simp [User.changeStatus, h, Except.isOk, Except.toBool]
  · cases hs : u.status <;> cases t <;> decide
  · intro h
    subst h
    have hself : u.status.canTransitionTo u.status = false := by
      cases u.status <;> decide
    simp [User.changeStatus, hself]
  · intro h
    simp [User.activate, h]
  · intro h
    simp [User.suspend, h]

theorem c3_witness :
    ((User.changeStatus
        { id := 1, email := "a@b.com", passwordHash := "h", username := "abc",
          fullName := "A", status := .pending, version := 1 }
        .active 5).isOk = true) ∧
    (User.activate
        { id := 1, email := "a@b.com", passwordHash := "h", username := "abc",
          fullName := "A", status := .active, version := 1 } 5
      = .ok { id := 1, email := "a@b.com", passwordHash := "h",
              username := "abc", fullName := "A", status := .active,
              version := 1 }) := by
  constructor
  · exact (c3_status_transitions
      { id := 1, email := "a@b.com", passwordHash := "h", username := "abc",
        fullName := "A", status := .pending, version := 1 } .active 5).1.mpr
      (by decide)
  · exact (c3_status_transitions
      { id := 1, email := "a@b.com", passwordHash := "h", username := "abc",
        fullName := "A", status := .active, version := 1 } .active 5).2.2.2.1 rfl

/-- C7: the strength check passes iff the byte length is between 8 and 72
inclusive and the password holds an ASCII uppercase letter, a lowercase
letter, and a digit; lengths below 8 fail TooShort, above 72 fail TooLong;
the three sample passwords behave as specified. The check is a pure
function of its argument. -/
theorem c7_password_strength :
    ∀ password : String,
      (ValidatePasswordStrength password = .ok () ↔
        (8 ≤ password.utf8ByteSize ∧ password.utf8ByteSize ≤ 72 ∧
         (∃ c ∈ password.data, 'A' ≤ c ∧ c ≤ 'Z') ∧
         (∃ c ∈ password.data, 'a' ≤ c ∧ c ≤ 'z') ∧
         (∃ c ∈ password.data, '0' ≤ c ∧ c ≤ '9'))) ∧
      (ValidatePasswordStrength password = .error .tooShort ↔
        password.utf8ByteSize < 8) ∧
      (ValidatePasswordStrength password = .error .tooLong ↔
        72 < password.utf8ByteSize) ∧
      ValidatePasswordStrength "short1A" = .error .tooShort ∧
      ValidatePasswordStrength "alllowercase1" = .error .missingUpper ∧
      ValidatePasswordStrength "Password123" = .ok () := by
  intro password
  have hU : (password.data.any isUpperAscii = true) ↔
      ∃ c ∈ password.data, 'A' ≤ c ∧ c ≤ 'Z' := by
    simp [List.any_eq_true, isUpperAscii]
  have hL : (password.data.any isLowerAscii = true) ↔
      ∃ c ∈ password.data, 'a' ≤ c ∧ c ≤ 'z' := by
    simp [List.any_eq_true, isLowerAscii]
  have hD : (password.data.any isDigitAscii = true) ↔
      ∃ c ∈ password.data, '0' ≤ c ∧ c ≤ '9' := by
    simp [List.any_eq_true, isDigitAscii]
  refine ⟨?_, ?_, ?_, by decide, by decide, by decide⟩
  · simp only [ValidatePasswordStrength]
    split_ifs with h1 h2 h3 h4 h5
    · exact iff_of_false (by simp) (by rintro ⟨ha, -⟩; omega)
    · exact iff_of_false (by simp) (by rintro ⟨-, hb, -⟩; omega)
    · refine iff_of_false (by simp) ?_
      rintro ⟨-, -, hc, -⟩
      rw [← hU] at hc
      simp [hc] at h3
    · refine iff_of_false (by simp) ?_
      rintro ⟨-, -, -, hc, -⟩
      rw [← hL] at hc
      simp [hc] at h4
    · refine iff_of_false (by simp) ?_
      rintro ⟨-, -, -, -, hc⟩
      rw [← hD] at hc
      simp [hc] at h5
    · refine iff_of_true rfl ⟨by omega, by omega, ?_, ?_, ?_⟩
      · rw [← hU]; simpa using h3
      · rw [← hL]; simpa using h4
      · rw [← hD]; simpa using h5
  · simp only [ValidatePasswordStrength]
    split_ifs with h1 h2 h3 h4 h5 <;>
      first
        | exact iff_of_true rfl h1
        | exact iff_of_false (by simp) (by omega)
  · simp only [ValidatePasswordStrength]
    split_ifs with h1 h2 h3 h4 h5 <;>
      first
        | exact iff_of_true rfl (by omega)
        | exact iff_of_false (by simp) (by omega)

/-- C8: access-token validation rejects any token not signed with the HMAC
family, and distinguishes expiry from every other failure: among tokens
that are well-formed, HMAC-signed and correctly signed, the expired-token
error is returned exactly when the expiry is in the past, while malformed
tokens, bad signatures and unexpected algorithms get the distinct
invalid-token error. -/
theorem c8_validate_access_token :
    ∀ (tok : JoseToken) (now : Nat),
      (tok.alg.isHMAC = false → ValidateAccessToken tok now = .error .invalidToken) ∧
      (tok.wellFormed = false → ValidateAccessToken tok now = .error .invalidToken) ∧
      (tok.sigValid = false → ValidateAccessToken tok now = .error .invalidToken) ∧
      (ValidateAccessToken tok now = .error .expiredToken ↔
        (tok.wellFormed = true ∧ tok.alg.isHMAC = true ∧ tok.sigValid = true ∧
         ∃ e, tok.exp = some e ∧ e < now)) := by
  intro tok now
  obtain ⟨wf, alg, sv, exp, nbf⟩ := tok
  refine ⟨?_, ?_, ?_, ?_⟩
  · intro h
    cases wf <;> cases sv <;> simp_all [ValidateAccessToken, parseWithClaims]
  · intro h
    subst h
    rfl
  · intro h
    subst h
    cases wf <;> cases alg <;> rfl
  · simp only [ValidateAccessToken, parseWithClaims]
    split_ifs with h1 h2 h3 h4
    · refine iff_of_false (by simp) ?_
      rintro ⟨hw, -⟩
      simp [hw] at h1
    · refine iff_of_false (by simp) ?_
      rintro ⟨-, hh, -⟩
      simp [hh] at h2
    · refine iff_of_false (by simp) ?_
      rintro ⟨-, -, hs, -⟩
      simp [hs] at h3
    · have hw : wf = true := by revert h1; cases wf <;> simp
      have hh : alg.isHMAC = true := by revert h2; cases alg.isHMAC <;> simp
      have hs : sv = true := by revert h3; cases sv <;> simp
      cases hexp : exp with
      | none =>
        refine iff_of_false (by simp) ?_
        rintro ⟨-, -, -, e, he, -⟩
        cases he
      | some e =>
        cases hde : decide (e < now) with
        | true =>
          refine iff_of_true (by simp [hde]) ?_
          exact ⟨hw, hh, hs, e, rfl, of_decide_eq_true hde⟩
        | false =>
          refine iff_of_false (by simp [hde]) ?_
          rintro ⟨-, -, -, e2, he2, hlt⟩
          cases he2
          exact of_decide_eq_false hde hlt
    · refine iff_of_false (by simp) ?_
      rintro ⟨-, -, -, e, he, hlt⟩
      subst he
      simp [hlt] at h4

theorem c8_witness :
    ValidateAccessToken
      { wellFormed := true, alg := .RS256, sigValid := true, exp := some 10 } 20
      = .error .invalidToken ∧
    ValidateAccessToken
      { wellFormed := true, alg := .HS256, sigValid := true, exp := some 10 } 20
      = .error .expiredToken := by
  constructor
  · exact (c8_validate_access_token
      { wellFormed := true, alg := .RS256, sigValid := true, exp := some 10 }
      20).1 rfl
  · exact (c8_validate_access_token
      { wellFormed := true, alg := .HS256, sigValid := true, exp := some 10 }
      20).2.2.2.mpr ⟨rfl, rfl, rfl, 10, rfl, by omega⟩

/-- Invariant carried through the `AllPermissions` fold: the accumulated
permissions have pairwise distinct concatenated keys, and every
accumulated key is recorded in the seen list. -/
def allPermsInv (acc : List String × List Permission) : Prop :=
  (acc.2.map Permission.str).Nodup ∧ ∀ p ∈ acc.2, p.str ∈ acc.1

theorem allPermsStep_inv (acc : List String × List Permission)
    (p : Permission) (h : allPermsInv acc) : allPermsInv (allPermsStep acc p) := by
  obtain ⟨hnd, hsub⟩ := h
  unfold allPermsStep
  by_cases hc : (p.resource ++ ":" ++ p.action) ∈ acc.1
  · have hb : acc.1.contains (p.resource ++ ":" ++ p.action) = true := by
      simpa using hc
    rw [if_pos hb]
    exact ⟨hnd, hsub⟩
  · have hb : ¬acc.1.contains (p.resource ++ ":" ++ p.action) = true := by
      simpa using hc
    rw [if_neg hb]
    have hkey : (p.resource ++ ":" ++ p.action) = p.str := rfl
    have hnotmem : p.str ∉ acc.1 := by
      rw [← hkey]
      exact hc
    constructor
    · rw [List.map_append]
      refine List.Nodup.append hnd (by simp) ?_
      intro s hs1 hs2
      simp only [List.map_cons, List.map_nil, List.mem_singleton] at hs2
      subst hs2
      obtain ⟨q, hq, hq2⟩ := List.mem_map.mp hs1
      exact hnotmem (hq2 ▸ hsub q hq)
    · intro q hq
      rcases List.mem_append.mp hq with hq | hq
      · exact List.mem_cons_of_mem _ (hsub q hq)
      · simp only [List.mem_singleton] at hq
        subst hq
        exact List.mem_cons_self _ _

theorem allPermsFold_inv (ps : List Permission)
    (acc : List String × List Permission) (h : allPermsInv acc) :
    allPermsInv (ps.foldl allPermsStep acc) := by
  induction ps generalizing acc with
  | nil => exact h
  | cons p ps ih => exact ih _ (allPermsStep_inv acc p h)

theorem allPermissions_keys_nodup (u : User) :
    (u.allPermissions.map Permission.str).Nodup := by
  have : ∀ (roles : List Role) (acc : List String × List Permission),
      allPermsInv acc →
      allPermsInv (roles.foldl
        (fun acc role => role.permissions.foldl allPermsStep acc) acc) := by
    intro roles
    induction roles with
    | nil => intro acc h; exact h
    | cons r rs ih => intro acc h; exact ih _ (allPermsFold_inv r.permissions acc h)
  exact (this u.roles ([], []) ⟨List.nodup_nil, by simp⟩).1

/-- C10: flattening deduplicates by the concatenated string
`resource + ":" + action`: the flattened keys are pairwise distinct, and
when two distinct pairs collide on the concatenation (such as
`("a:b", "c")` and `("a", "b:c")`, both mapping to `"a:b:c"`), only the
first encountered permission survives, both in `AllPermissions` and in the
permission claim strings put into issued access tokens. -/
theorem c10_dedup_by_concatenated_string :
    (∀ u : User, (u.allPermissions.map Permission.str).Nodup) ∧
    (∀ (u : User) (r : Role) (p1 p2 : Permission),
      u.roles = [r] → r.permissions = [p1, p2] → p1.str = p2.str →
      u.allPermissions = [p1] ∧ tokenPermissionStrings u = [p1.str]) := by
  constructor
  · exact allPermissions_keys_nodup
  · intro u r p1 p2 hroles hperms hstr
    have hkey : (p2.resource ++ ":" ++ p2.action) = (p1.resource ++ ":" ++ p1.action) := by
      simpa [Permission.str] using hstr.symm
    have hall : u.allPermissions = [p1] := by
      simp only [User.allPermissions, hroles, List.foldl_cons, List.foldl_nil,
        hperms, allPermsStep, hkey]
      simp
    exact ⟨hall, by simp [tokenPermissionStrings, hall]⟩

theorem c10_witness :
    (User.allPermissions
        { id := 1, email := "a@b.com", passwordHash := "h", username := "abc",
          fullName := "A", status := .active, version := 1,
          roles := [⟨"r", [⟨"a:b", "c", ""⟩, ⟨"a", "b:c", ""⟩]⟩] }
      = [⟨"a:b", "c", ""⟩]) ∧
    (tokenPermissionStrings
        { id := 1, email := "a@b.com", passwordHash := "h", username := "abc",
          fullName := "A", status := .active, version := 1,
          roles := [⟨"r", [⟨"a:b", "c", ""⟩, ⟨"a", "b:c", ""⟩]⟩] }
      = ["a:b:c"]) :=
  c10_dedup_by_concatenated_string.2
    { id := 1, email := "a@b.com", passwordHash := "h", username := "abc",
      fullName := "A", status := .active, version := 1,
      roles := [⟨"r", [⟨"a:b", "c", ""⟩, ⟨"a", "b:c", ""⟩]⟩] }
    ⟨"r", [⟨"a:b", "c", ""⟩, ⟨"a", "b:c", ""⟩]⟩
    ⟨"a:b", "c", ""⟩ ⟨"a", "b:c", ""⟩
    rfl rfl rfl

/-- Primary-key uniqueness of the `users` table, assumed by the store
model: no two rows share an id. -/
def userIdsUnique (us : List User) : Prop :=
  us.Pairwise fun a b => a.id ≠ b.id

/-- A concrete active account at a given version, used to instantiate
theorems with hypotheses at explicit inputs. -/
def sampleUser (ver : Nat) : User :=
  { id := 1, email := "a@b.com", passwordHash := "h", username := "abc",
    fullName := "A", status := .active, version := ver }

/-- The same account snapshot with an edited profile field. -/
def sampleUserEdit (ver : Nat) : User :=
  { sampleUser ver with fullName := "B" }

theorem updateMatches_iff (u x : User) :
    updateMatches u x = true ↔
      x.id = u.id ∧ x.version = u.version ∧ x.deletedAt = none := by
  simp [updateMatches, Option.isNone_iff_eq_none, and_assoc]

theorem userIdsUnique_inj {us : List User} (hid : userIdsUnique us)
    {x y : User} (hx : x ∈ us) (hy : y ∈ us) (h : x.id = y.id) : x = y := by
  by_contra hne
  have hsymm : Symmetric fun a b : User => a.id ≠ b.id :=
    fun _ _ hab h2 => hab h2.symm
  exact List.Pairwise.forall hsymm hid hx hy hne h

/-- C4: under the optimistic-concurrency update, a successful write bumps
the stored version to exactly the snapshot version plus one; a write whose
snapshot version is stale (or whose record is gone) fails leaving the
store untouched, reporting VersionMismatch when a live record with the id
exists at a different version and NotFound when no live record with the id
exists, the distinction made by the fresh read after the conditional
update matched zero rows. -/
theorem c4_update_version_and_error_distinction :
    ∀ (us : List User) (u : User) (now : Nat),
      userIdsUnique us →
      ((updateUser us u now).1.isOk = true ↔
        ∃ x ∈ us, x.id = u.id ∧ x.version = u.version ∧ x.deletedAt = none) ∧
      ((updateUser us u now).1.isOk = true →
        ∀ y ∈ (updateUser us u now).2, y.id = u.id →
          y.version = u.version + 1) ∧
      ((updateUser us u now).1.isOk = false → (updateUser us u now).2 = us) ∧
      ((updateUser us u now).1 = .error .versionMismatch ↔
        ∃ x ∈ us, x.id = u.id ∧ x.deletedAt = none ∧ x.version ≠ u.version) ∧
      ((updateUser us u now).1 = .error .notFound ↔
        ¬∃ x ∈ us, x.id = u.id ∧ x.deletedAt = none) := by
  intro us u now hid
  by_cases hany : us.any (updateMatches u) = true
  · obtain ⟨x0, hx0, hm0⟩ := List.any_eq_true.mp hany
    obtain ⟨hx0id, hx0v, hx0d⟩ := (updateMatches_iff u x0).mp hm0
    simp only [updateUser, if_pos hany]
    refine ⟨?_, ?_, ?_, ?_, ?_⟩
    · exact iff_of_true rfl ⟨x0, hx0, hx0id, hx0v, hx0d⟩
    · intro _ y hy hyid
      obtain ⟨x, hx, hxy⟩ := List.mem_map.mp hy
      by_cases hm : updateMatches u x = true
      · rw [if_pos hm] at hxy
        obtain ⟨-, hv, -⟩ := (updateMatches_iff u x).mp hm
        rw [← hxy]
        simp [applyUserUpdate, hv]
      · rw [if_neg hm] at hxy
        subst hxy
        have : x = x0 :=
          userIdsUnique_inj hid hx hx0 (hyid.trans hx0id.symm)
        subst this
        exact absurd hm0 hm
    · intro h
      simp [Except.isOk, Except.toBool] at h
    · refine iff_of_false (by simp) ?_
      rintro ⟨x, hx, hxid, hxd, hxv⟩
      have : x = x0 := userIdsUnique_inj hid hx hx0 (by rw [hxid, hx0id])
      subst this
      exact hxv (hx0v.trans rfl)
    · refine iff_of_false (by simp) ?_
      intro hno
      exact hno ⟨x0, hx0, hx0id, hx0d⟩
  · have hnone : ∀ x ∈ us, updateMatches u x = false := by
      intro x hx
      by_contra hcon
      exact hany (List.any_eq_true.mpr ⟨x, hx,
        by revert hcon; cases updateMatches u x <;> simp⟩)
    simp only [updateUser, if_neg hany]
    cases hfind : getUserByID us u.id with
    | none =>
      have hno : ∀ x ∈ us, ¬(x.id = u.id ∧ x.deletedAt = none) := by
        intro x hx hcon
        have := List.find?_eq_none.mp hfind x hx
        simp [hcon.1, Option.isNone_iff_eq_none, hcon.2] at this
      refine ⟨?_, ?_, ?_, ?_, ?_⟩
      · refine iff_of_false (by simp [Except.isOk, Except.toBool]) ?_
        rintro ⟨x, hx, hxid, -, hxd⟩
        exact hno x hx ⟨hxid, hxd⟩
      · intro h
        simp [Except.isOk, Except.toBool] at h
      · intro _
        trivial
      · refine iff_of_false (by simp) ?_
        rintro ⟨x, hx, hxid, hxd, -⟩
        exact hno x hx ⟨hxid, hxd⟩
      · refine iff_of_true (by trivial) ?_
        rintro ⟨x, hx, hxid, hxd⟩
        exact hno x hx ⟨hxid, hxd⟩
    | some existing =>
      have hpred := List.find?_some hfind
      have hmem := List.mem_of_find?_eq_some hfind
      have hexid : existing.id = u.id := by
        simp only [Bool.and_eq_true, beq_iff_eq] at hpred
        exact hpred.1
      have hexd : existing.deletedAt = none := by
        simp only [Bool.and_eq_true, Option.isNone_iff_eq_none] at hpred
        exact hpred.2
      have hexv : existing.version ≠ u.version := by
        intro hv
        have : updateMatches u existing = true :=
          (updateMatches_iff u existing).mpr ⟨hexid, hv, hexd⟩
        rw [hnone existing hmem] at this
        cases this
      have hbne : (existing.version != u.version) = true := by
        simpa using hexv
      simp only [hbne, if_pos]
      refine ⟨?_, ?_, ?_, ?_, ?_⟩
      · refine iff_of_false (by simp [Except.isOk, Except.toBool]) ?_
        rintro ⟨x, hx, hxid, hxv, hxd⟩
        exact (hexv (by
          have : x = existing := userIdsUnique_inj hid hx hmem (by rw [hxid, hexid])
          rw [← this, hxv]))
      · intro h
        simp [Except.isOk, Except.toBool] at h
      · intro _
        trivial
      · exact iff_of_true (by trivial) ⟨existing, hmem, hexid, hexd, hexv⟩
      · refine iff_of_false (by simp) ?_
        intro hno
        exact hno ⟨existing, hmem, hexid, hexd⟩

theorem c4_witness :
    userIdsUnique [sampleUser 1] ∧
    ((updateUser [sampleUser 1] (sampleUserEdit 1) 9).1.isOk = true) ∧
    ((updateUser [sampleUser 2] (sampleUserEdit 1) 9).1
      = .error .versionMismatch) := by
  refine ⟨by simp [userIdsUnique], ?_, ?_⟩
  · exact (c4_update_version_and_error_distinction [sampleUser 1]
      (sampleUserEdit 1) 9 (by simp [userIdsUnique])).1.mpr
      ⟨_, List.mem_singleton_self _, rfl, rfl, rfl⟩
  · exact (c4_update_version_and_error_distinction [sampleUser 2]
      (sampleUserEdit 1) 9 (by simp [userIdsUnique])).2.2.2.1.mpr
      ⟨_, List.mem_singleton_self _, rfl, rfl, by decide⟩

theorem revokeAllForUser_idem (ts : List RefreshToken) (uid n1 n2 : Nat) :
    revokeAllForUser (revokeAllForUser ts uid n1) uid n2
      = revokeAllForUser ts uid n1 := by
  unfold revokeAllForUser
  rw [List.map_map]
  apply List.map_congr_left
  intro t _
  by_cases hc : (t.userId == uid && !t.isRevoked) = true
  · rw [Function.comp_apply, if_pos hc]
    rw [if_neg (by simp [RefreshToken.isRevoked])]
  · rw [Function.comp_apply, if_neg hc, if_neg hc]

/-- C1: the shipped program cannot perform the claimed mass revocation.
`TokenRepository.GetByHash` selects nine columns but `scanToken` supplies
eight Scan destinations, so every matched lookup fails the scan and
`AuthService.RefreshToken` returns the generic invalid-credential error at
the lookup with the token store unchanged; the reuse-detection branch is
unreachable. At the failing input (a revoked record matching the presented
hash, next to a second, still-valid token of the same account) nothing is
revoked and the second token stays valid. -/
theorem c1_scan_defect_blocks_reuse_detection :
    (∀ (ts : List RefreshToken) (h : String),
      (getTokenByHashActual ts h).isOk = false) ∧
    (∀ (hash : String → String) (us : List User) (ts : List RefreshToken)
      (raw : String) (now newId : Nat) (newRaw ip ua : String),
      refreshRotateActual hash us ts raw now newId newRaw ip ua
        = (.error .invalidCredential, ts)) ∧
    (refreshRotateActual (fun s => s) []
        [{ id := 2, userId := 7, tokenHash := "h", expiresAt := 100,
           revokedAt := some 3 },
         { id := 3, userId := 7, tokenHash := "h3", expiresAt := 100 }]
        "h" 10 9 "new" "" ""
      = (.error .invalidCredential,
         [{ id := 2, userId := 7, tokenHash := "h", expiresAt := 100,
            revokedAt := some 3 },
          { id := 3, userId := 7, tokenHash := "h3", expiresAt := 100 }])) ∧
    (∃ t ∈ (refreshRotateActual (fun s => s) []
        [{ id := 2, userId := 7, tokenHash := "h", expiresAt := 100,
           revokedAt := some 3 },
         { id := 3, userId := 7, tokenHash := "h3", expiresAt := 100 }]
        "h" 10 9 "new" "" "").2,
      t.userId = 7 ∧ t.isValid 10 = true) := by
  have hlook : ∀ (ts : List RefreshToken) (h : String),
      (getTokenByHashActual ts h).isOk = false := by
    intro ts h
    unfold getTokenByHashActual scanToken
    cases ts.find? (fun t => t.tokenHash == h) <;>
      simp [getByHashSelectColumns, scanTokenDestinations, Except.isOk,
        Except.toBool]
  have hrot : ∀ (hash : String → String) (us : List User)
      (ts : List RefreshToken) (raw : String) (now newId : Nat)
      (newRaw ip ua : String),
      refreshRotateActual hash us ts raw now newId newRaw ip ua
        = (.error .invalidCredential, ts) := by
    intro hash us ts raw now newId newRaw ip ua
    unfold refreshRotateActual
    cases hga : getTokenByHashActual ts (hash raw) with
    | error e => rfl
    | ok stored =>
      have := hlook ts (hash raw)
      rw [hga] at this
      simp [Except.isOk, Except.toBool] at this
  refine ⟨hlook, hrot, hrot (fun s => s) [] _ "h" 10 9 "new" "" "", ?_⟩
  rw [hrot (fun s => s) [] _ "h" 10 9 "new" "" ""]
  exact ⟨{ id := 3, userId := 7, tokenHash := "h3", expiresAt := 100 },
    by decide, rfl, by decide⟩

/-- C5 counterexample: revoking an already-revoked token is not a
successful no-op; the repository reports NotFound because the conditional
update (`WHERE id = $1 AND revoked_at IS NULL`) matches zero rows. -/
theorem c5_counterexample :
    (revokeTokenById
      [{ id := 2, userId := 7, tokenHash := "h", expiresAt := 100,
         revokedAt := some 3 }] 2 10).1 = .error .notFound ∧
    (revokeTokenById
      [{ id := 2, userId := 7, tokenHash := "h", expiresAt := 100,
         revokedAt := some 3 }] 2 10).1.isOk = false := by
  decide

/-- Revoked records persist through an operation: each revoked record in
the pre-state is still present (same id and hash) and still revoked in the
post-state. -/
def revokedPersists (ts ts2 : List RefreshToken) : Prop :=
  ∀ t ∈ ts, t.isRevoked = true →
    ∃ t2 ∈ ts2, t2.id = t.id ∧ t2.tokenHash = t.tokenHash ∧ t2.isRevoked = true

theorem revokedPersists_refl (ts : List RefreshToken) : revokedPersists ts ts :=
  fun t ht hr => ⟨t, ht, rfl, rfl, hr⟩

theorem revokedPersists_append {ts ts2 : List RefreshToken}
    (l : List RefreshToken) (h : revokedPersists ts ts2) :
    revokedPersists ts (ts2 ++ l) := by
  intro t ht hr
  obtain ⟨t2, ht2, h1, h2, h3⟩ := h t ht hr
  exact ⟨t2, List.mem_append_left l ht2, h1, h2, h3⟩

theorem revokedPersists_map {ts : List RefreshToken}
    {f : RefreshToken → RefreshToken}
    (hid : ∀ t, (f t).id = t.id) (hhash : ∀ t, (f t).tokenHash = t.tokenHash)
    (hrev : ∀ t, t.isRevoked = true → (f t).isRevoked = true) :
    revokedPersists ts (ts.map f) :=
  fun t ht hr =>
    ⟨f t, List.mem_map_of_mem f ht, hid t, hhash t, hrev t hr⟩

theorem revokedPersists_revokeTokenById (ts : List RefreshToken)
    (tokenId now : Nat) :
    revokedPersists ts (revokeTokenById ts tokenId now).2 := by
  unfold revokeTokenById
  by_cases hc : ts.any (fun t => t.id == tokenId && !t.isRevoked) = true
  · rw [if_pos hc]
    refine revokedPersists_map ?_ ?_ ?_
    · intro t
      by_cases h : (t.id == tokenId && !t.isRevoked) = true <;> simp [h]
    · intro t
      by_cases h : (t.id == tokenId && !t.isRevoked) = true <;> simp [h]
    · intro t hr
      have h : (t.id == tokenId && !t.isRevoked) = false := by simp [hr]
      rw [if_neg (by simp [h])]
      exact hr
  · rw [if_neg hc]
    exact revokedPersists_refl ts

theorem revokedPersists_revokeAllForUser (ts : List RefreshToken)
    (uid now : Nat) : revokedPersists ts (revokeAllForUser ts uid now) := by
  refine revokedPersists_map ?_ ?_ ?_
  · intro t
    by_cases h : (t.userId == uid && !t.isRevoked) = true <;> simp [h]
  · intro t
    by_cases h : (t.userId == uid && !t.isRevoked) = true <;> simp [h]
  · intro t hr
    have h : (t.userId == uid && !t.isRevoked) = false := by simp [hr]
    rw [if_neg (by simp [h])]
    exact hr

theorem revokedPersists_refreshRotate (hash : String → String)
    (us : List User) (ts : List RefreshToken) (raw : String)
    (now newId : Nat) (newRaw ip ua : String) :
    revokedPersists ts
      (refreshRotate hash us ts raw now newId newRaw ip ua).2 := by
  unfold refreshRotate
  cases hfind : getTokenByHash ts (hash raw) with
  | none => exact revokedPersists_refl ts
  | some stored =>
    simp only
    by_cases hvalid : stored.isValid now = true
    · simp only [hvalid, Bool.not_true, Bool.false_eq_true, if_false]
      cases huser : getUserByID us stored.userId with
      | none => exact revokedPersists_refl ts
      | some user =>
        simp only
        by_cases hact : user.isActive = true
        · simp only [hact, Bool.not_true, Bool.false_eq_true, if_false,
            generateTokens]
          exact revokedPersists_append _
            (revokedPersists_revokeTokenById ts stored.id now)
        · have : user.isActive = false := by
            revert hact; cases user.isActive <;> simp
          simp only [this, Bool.not_false, if_true]
          exact revokedPersists_revokeTokenById ts stored.id now
    · have : stored.isValid now = false := by
        revert hvalid; cases stored.isValid now <;> simp
      simp only [this, Bool.not_false, if_true]
      by_cases hrev : stored.isRevoked = true
      · simp only [hrev, if_true]
        exact revokedPersists_revokeAllForUser ts stored.userId now
      · have : stored.isRevoked = false := by
          revert hrev; cases stored.isRevoked <;> simp
        simp only [this, Bool.false_eq_true, if_false]
        exact revokedPersists_refl ts

theorem revokedPersists_login (verify : String → String → Bool)
    (hash : String → String) (us : List User) (ts : List RefreshToken)
    (email password : String) (now newId : Nat) (newRaw ip ua : String)
    (pub : Except DomainError Unit) :
    revokedPersists ts
      (login verify hash us ts email password now newId newRaw ip ua pub).2 := by
  unfold login
  cases getUserByEmail us email with
  | none => exact revokedPersists_refl ts
  | some user =>
    simp only
    by_cases hv : verify password user.passwordHash = true
    · simp only [hv, Bool.not_true, Bool.false_eq_true, if_false]
      by_cases hact : user.isActive = true
      · simp only [hact, Bool.not_true, Bool.false_eq_true, if_false,
          generateTokens]
        cases pub <;>
          exact revokedPersists_append _ (revokedPersists_refl ts)
      · have : user.isActive = false := by
          revert hact; cases user.isActive <;> simp
        simp only [this, Bool.not_false, if_true]
        exact revokedPersists_refl ts
    · have : verify password user.passwordHash = false := by
        revert hv; cases verify password user.passwordHash <;> simp
      simp only [this, Bool.not_false, if_true]
      exact revokedPersists_refl ts

theorem revokedPersists_logout (hash : String → String)
    (ts : List RefreshToken) (raw : String) (now : Nat)
    (pub : Except DomainError Unit) :
    revokedPersists ts (logout hash ts raw now pub).2 := by
  unfold logout
  cases getTokenByHash ts (hash raw) with
  | none => exact revokedPersists_refl ts
  | some stored =>
    simp only
    have hts : ∀ (r : Except DomainError Unit × List RefreshToken),
        r = revokeTokenById ts stored.id now →
        revokedPersists ts r.2 := by
      rintro r rfl
      exact revokedPersists_revokeTokenById ts stored.id now
    cases hr : revokeTokenById ts stored.id now with
    | mk res ts1 =>
      cases res with
      | error e => simpa using hts _ hr.symm
      | ok _ =>
        cases pub <;> simpa using hts _ hr.symm

/-- C5 amended: `RevokeAllForUser` is idempotent, but single-token `Revoke`
on an already-revoked (or absent) token is not a no-op success: it fails
NotFound leaving the store unchanged. Once revoked, a record is never
revalidated: every modelled mutating operation keeps it present and
revoked, and expired-token cleanup only deletes records, never altering
one. -/
theorem c5_revocation_semantics :
    ∀ (hash : String → String) (verify : String → String → Bool)
      (us : List User) (ts : List RefreshToken)
      (tokenId uid now n2 newId : Nat)
      (raw newRaw email password ip ua : String)
      (pub : Except DomainError Unit),
      ((∀ t ∈ ts, t.id = tokenId → t.isRevoked = true) →
        revokeTokenById ts tokenId now = (.error .notFound, ts)) ∧
      (revokeAllForUser (revokeAllForUser ts uid now) uid n2
        = revokeAllForUser ts uid now) ∧
      revokedPersists ts (revokeTokenById ts tokenId now).2 ∧
      revokedPersists ts (revokeAllForUser ts uid now) ∧
      revokedPersists ts
        (refreshRotate hash us ts raw now newId newRaw ip ua).2 ∧
      revokedPersists ts
        (login verify hash us ts email password now newId newRaw ip ua pub).2 ∧
      revokedPersists ts (logout hash ts raw now pub).2 ∧
      (∀ t ∈ deleteExpiredTokens ts now, t ∈ ts) := by
  intro hash verify us ts tokenId uid now n2 newId raw newRaw email password ip
    ua pub
  refine ⟨?_, revokeAllForUser_idem ts uid now n2,
    revokedPersists_revokeTokenById ts tokenId now,
    revokedPersists_revokeAllForUser ts uid now,
    revokedPersists_refreshRotate hash us ts raw now newId newRaw ip ua,
    revokedPersists_login verify hash us ts email password now newId newRaw
      ip ua pub,
    revokedPersists_logout hash ts raw now pub,
    fun t ht => List.mem_of_mem_filter ht⟩
  intro hall
  unfold revokeTokenById
  have hc : (ts.any fun t => t.id == tokenId && !t.isRevoked) = false := by
    rw [List.any_eq_false]
    intro t ht hand
    simp only [Bool.and_eq_true, beq_iff_eq, Bool.not_eq_true'] at hand
    obtain ⟨h1, h2⟩ := hand
    rw [hall t ht h1] at h2
    cases h2
  rw [if_neg (by simp [hc])]

theorem c5_witness :
    revokeTokenById
      [{ id := 2, userId := 7, tokenHash := "h", expiresAt := 100,
         revokedAt := some 3 }] 2 10
      = (.error .notFound,
         [{ id := 2, userId := 7, tokenHash := "h", expiresAt := 100,
            revokedAt := some 3 }]) :=
  (c5_revocation_semantics (fun s => s) (fun _ _ => true) []
    [{ id := 2, userId := 7, tokenHash := "h", expiresAt := 100,
       revokedAt := some 3 }]
    2 7 10 11 9 "raw" "new" "a@b.com" "pw" "" "" (.ok ())).1 (by decide)

/-- C6 counterexample: `Login` checks the event publisher's return value
and propagates it, so the same otherwise-successful login fails when the
publisher fails: the two results differ at this concrete input. -/
theorem c6_counterexample :
    ((login (fun p h2 => p == "pw" && h2 == "h") (fun s => s) [sampleUser 1]
        [] "a@b.com" "pw" 10 5 "raw" "ip" "ua" (.error .conflict)).1
      = .error .conflict) ∧
    ((login (fun p h2 => p == "pw" && h2 == "h") (fun s => s) [sampleUser 1]
        [] "a@b.com" "pw" 10 5 "raw" "ip" "ua" (.ok ())).1
      = .ok ⟨"raw", 1⟩) ∧
    ((login (fun p h2 => p == "pw" && h2 == "h") (fun s => s) [sampleUser 1]
        [] "a@b.com" "pw" 10 5 "raw" "ip" "ua" (.error .conflict)).1
      ≠ (login (fun p h2 => p == "pw" && h2 == "h") (fun s => s) [sampleUser 1]
        [] "a@b.com" "pw" 10 5 "raw" "ip" "ua" (.ok ())).1) := by
  refine ⟨by decide, by decide, by decide⟩

/-- C6 amended: operations that discard the publisher's result (the
`_ = publisher.Publish(...)` pattern of the user-service operations, user
activation as the representative) are unaffected by publish failures, but
`Login` checks the publisher's return value and propagates it: when a
login reaches the publish step, a failing publisher makes the login fail
with that error, the tokens having already been issued. -/
theorem c6_publish_failure_handling :
    ∀ (verify : String → String → Bool) (hash : String → String)
      (us : List User) (ts : List RefreshToken)
      (email password : String) (now newId id : Nat)
      (newRaw ip ua : String) (e : DomainError)
      (pub pub2 : Except DomainError Unit),
      (activateUser us id now pub = activateUser us id now pub2) ∧
      (∀ user, getUserByEmail us email = some user →
        verify password user.passwordHash = true →
        user.isActive = true →
        (login verify hash us ts email password now newId newRaw ip ua
            (.error e)).1 = .error e ∧
        (login verify hash us ts email password now newId newRaw ip ua
            (.ok ())).1 = .ok ⟨newRaw, user.id⟩) := by
  intro verify hash us ts email password now newId id newRaw ip ua e pub
    pub2
  refine ⟨rfl, ?_⟩
  intro user hfind hv hact
  refine ⟨?_, ?_⟩
  · simp [login, hfind, hv, hact, generateTokens]
  · simp [login, hfind, hv, hact, generateTokens]

theorem c6_witness :
    (activateUser [sampleUser 1] 1 10 (.error .conflict)
      = activateUser [sampleUser 1] 1 10 (.ok ())) ∧
    ((login (fun p h2 => p == "pw" && h2 == "h") (fun s => s) [sampleUser 1]
        [] "a@b.com" "pw" 10 5 "raw" "ip" "ua" (.error .conflict)).1
      = .error .conflict) := by
  have h := c6_publish_failure_handling
    (fun p h2 => p == "pw" && h2 == "h") (fun s => s) [sampleUser 1] []
    "a@b.com" "pw" 10 5 1 "raw" "ip" "ua" .conflict
    (.error .conflict) (.ok ())
  exact ⟨h.1, (h.2 (sampleUser 1) (by decide) (by decide) (by decide)).1⟩

/-- C9 counterexample: a soft-deleted account with a matching password does
not fail Unauthorized; the email lookup excludes deleted rows, so the
login fails with the generic InvalidCredential instead. -/
theorem c9_counterexample :
    ((login (fun _ _ => true) (fun s => s)
        [{ sampleUser 1 with deletedAt := some 0 }] []
        "a@b.com" "pw" 10 5 "raw" "ip" "ua" (.ok ())).1
      = .error .invalidCredential) ∧
    ((login (fun _ _ => true) (fun s => s)
        [{ sampleUser 1 with deletedAt := some 0 }] []
        "a@b.com" "pw" 10 5 "raw" "ip" "ua" (.ok ())).1
      ≠ .error .unauthorized) := by
  refine ⟨by decide, by decide⟩

/-- C9 amended: an unknown email and a wrong password both fail with the
generic InvalidCredential; a soft-deleted account also fails
InvalidCredential, because the email lookup excludes deleted rows; an
existing non-deleted account that is not active fails Unauthorized; in
every one of these failure cases the refresh-token store is unchanged. -/
theorem c9_login_failure_modes :
    ∀ (verify : String → String → Bool) (hash : String → String)
      (us : List User) (ts : List RefreshToken) (email password : String)
      (now newId : Nat) (newRaw ip ua : String)
      (pub : Except DomainError Unit),
      (getUserByEmail us email = none →
        login verify hash us ts email password now newId newRaw ip ua pub
          = (.error .invalidCredential, ts)) ∧
      (∀ user, getUserByEmail us email = some user →
        verify password user.passwordHash = false →
        login verify hash us ts email password now newId newRaw ip ua pub
          = (.error .invalidCredential, ts)) ∧
      (∀ user, getUserByEmail us email = some user →
        verify password user.passwordHash = true →
        user.isActive = false →
        login verify hash us ts email password now newId newRaw ip ua pub
          = (.error .unauthorized, ts)) ∧
      ((∀ u ∈ us, lowerStr u.email = lowerStr email → u.deletedAt ≠ none) →
        login verify hash us ts email password now newId newRaw ip ua pub
          = (.error .invalidCredential, ts)) := by
  intro verify hash us ts email password now newId newRaw ip ua pub
  have hnone : (∀ u ∈ us, lowerStr u.email = lowerStr email →
      u.deletedAt ≠ none) → getUserByEmail us email = none := by
    intro hall
    rw [getUserByEmail, List.find?_eq_none]
    intro x hx hand
    simp only [Bool.and_eq_true, beq_iff_eq, Option.isNone_iff_eq_none]
      at hand
    exact hall x hx hand.1 hand.2
  refine ⟨?_, ?_, ?_, ?_⟩
  · intro h
    simp [login, h]
  · intro user hfind hv
    simp [login, hfind, hv]
  · intro user hfind hv hact
    simp [login, hfind, hv, hact]
  · intro hall
    simp [login, hnone hall]

theorem c9_witness :
    (login (fun _ _ => false) (fun s => s) [sampleUser 1] []
        "a@b.com" "pw" 10 5 "raw" "ip" "ua" (.ok ())
      = (.error .invalidCredential, [])) ∧
    (login (fun _ _ => true) (fun s => s) [{ sampleUser 1 with
        status := .suspended }] []
        "a@b.com" "pw" 10 5 "raw" "ip" "ua" (.ok ())
      = (.error .unauthorized, [])) := by
  constructor
  · exact (c9_login_failure_modes (fun _ _ => false) (fun s => s)
      [sampleUser 1] [] "a@b.com" "pw" 10 5 "raw" "ip" "ua" (.ok ())).2.1
      (sampleUser 1) (by decide) rfl
  · exact (c9_login_failure_modes (fun _ _ => true) (fun s => s)
      [{ sampleUser 1 with status := .suspended }] [] "a@b.com" "pw" 10 5
      "raw" "ip" "ua" (.ok ())).2.2.1
      { sampleUser 1 with status := .suspended } (by decide) rfl (by decide)

end Aegis
